import Mathlib

/-!
Verification development for the chain-event synchronization engine of the
`ssss` crate (files `src/ssss/src/eth.rs` and `src/ssss/src/sync/mod.rs`).

The embedding models the log-decode pipeline (`SsssPermitter::decode_permitter_event`,
`SsssPermitter::get_block_events`, `SsssPermitter::events`), the block cursor
(`SsssPermitter::blocks`, `SsssPermitter::wait_for_block`), the provider
registry (`providers`), and the supervisor loop (`sync_chain`).

Machine integers (u64) are modelled as `Nat`; none of the modelled code paths
perform arithmetic that can overflow a u64, so no wraparound modelling is
needed.  Hashes and addresses are abstract `Nat` identifiers.  External library
behaviour (the RPC middleware, the ethers ABI decoder, the scheduler of
`buffer_unordered`) is a parameter of the model, packaged in `Env`.
-/

namespace Ssss

/-- Modelled from the spec: `EventIndex` is the (blockNumber, logIndex) pair
defined in `crate::types` (a module not included under src).  Fields are u64,
modelled as `Nat`. -/
structure EventIndex where
  block : Nat
  log_index : Nat
deriving DecidableEq, Repr

/-- Modelled from the spec: `crate::types` derives `Default` for `EventIndex`
(the standard Rust derive), whose value zeroes every field.  This is the value
`Default::default()` produces at `eth.rs` line 113. -/
def defaultEventIndex : EventIndex := ⟨0, 0⟩

/-- Strict-total-order comparison used by downstream consumers of
`EventIndex` (lexicographic on (block, log_index)). -/
def EventIndex.le (a b : EventIndex) : Prop :=
  a.block < b.block ∨ (a.block = b.block ∧ a.log_index ≤ b.log_index)

instance : DecidablePred fun p : EventIndex × EventIndex => p.1.le p.2 := by
  intro p
  unfold EventIndex.le
  infer_instance

instance (a b : EventIndex) : Decidable (a.le b) := by
  unfold EventIndex.le
  infer_instance

/-- `ConfigurationEvent` from `eth.rs`: identity is an abstract fixed-width id
(modelled as `Nat`), config is a byte vector (modelled as `List Nat`). -/
structure ConfigurationEvent where
  identity : Nat
  config : List Nat
deriving DecidableEq, Repr

/-- `EventKind` from `eth.rs` (the decoded variants that exist in the source:
`Configuration` and `ProcessedBlock`). -/
inductive EventKind where
  | configuration (e : ConfigurationEvent)
  | processedBlock
deriving DecidableEq, Repr

/-- `Event` from `eth.rs`: kind, index, optional source transaction hash. -/
structure Event where
  kind : EventKind
  index : EventIndex
  tx : Option Nat
deriving DecidableEq, Repr

/-- An ethers `Log` restricted to the fields `decode_permitter_event` reads:
`block_number`, `transaction_hash`, `log_index`, `removed`, `topics`, `data`.
All are modelled with the same optionality as in ethers. -/
structure Log where
  block_number : Option Nat
  transaction_hash : Option Nat
  log_index : Option Nat
  removed : Option Bool
  topics : List Nat
  data : List Nat
deriving DecidableEq, Repr

/-- Stands for the keccak-256 signature topic of `event Configuration()` in the
abigen ABI of `eth.rs`.  The concrete hash value is irrelevant to every claim;
only its distinctness from other signatures matters. -/
def configurationTopic : Nat := 0

/-- Stands for the keccak-256 signature topic of `event Unimplemented()`. -/
def unimplementedTopic : Nat := 1

/-- The two event variants the abigen contract ABI of `eth.rs` can decode. -/
inductive ContractEvent where
  | configurationFilter
  | unimplementedFilter
deriving DecidableEq, Repr

/-- `SsssPermitterContractEvents::decode_log`: matches the log signature topic
against the two known event signatures (both parameterless, so a well-formed
log for them carries exactly the signature topic); anything else is a decode
error. -/
def decode_log (topics : List Nat) : Except String ContractEvent :=
  if topics = [configurationTopic] then .ok .configurationFilter
  else if topics = [unimplementedTopic] then .ok .unimplementedFilter
  else .error "unrecognized event signature"

/-- Outcome of one call to `decode_permitter_event`.  The Rust function
returns `Option<Event>`, but the `.unwrap()` on the calldata ABI decode at
`eth.rs` line 205 can also panic; `panics` records that control-flow exit. -/
inductive DecodeOutcome where
  | dropped
  | ok (e : Event)
  | panics
deriving DecidableEq, Repr

/-- The external world as seen by the pipeline: RPC log queries, transaction
lookups (the `retry_if` in the source retries until the transaction is
present, so the modelled lookup is total), the ethers ABI decoder for the
`configure(bytes32,bytes)` calldata, and the completion order that
`buffer_unordered(100)` happens to produce for each block (an arbitrary
permutation, witnessed by `perm_spec`). -/
structure Env where
  getLogs : Nat → List Log
  txInput : Nat → List Nat
  decodeConfigure : List Nat → Option (Nat × List Nat)
  perm : Nat → List Event → List Event
  perm_spec : ∀ b l, (perm b l).Perm l

/-- `SsssPermitter::decode_permitter_event` (`eth.rs` lines 183-218): require
`block_number`, `transaction_hash`, `log_index` present and `removed` absent;
decode the signature (warn and drop on failure); fetch the source transaction
input; for `Configuration`, ABI-decode the calldata — `.unwrap()` panics when
that decode fails; every other recognized event is silently dropped. -/
def decode_permitter_event (env : Env) (log : Log) : DecodeOutcome :=
  match log.block_number, log.transaction_hash, log.log_index, log.removed with
  | some block, some tx, some logIndex, none =>
    match decode_log log.topics with
    | .error _ => .dropped
    | .ok ev =>
      let input := env.txInput tx
      match ev with
      | .configurationFilter =>
        match env.decodeConfigure input with
        | none => .panics
        | some (identity, config) =>
          .ok { kind := .configuration ⟨identity, config⟩
                index := ⟨block, logIndex⟩
                tx := some tx }
      | .unimplementedFilter => .dropped
  | _, _, _, _ => .dropped

/-- Projection used by the `filter_map(ready)` step of `get_block_events`. -/
def DecodeOutcome.event? : DecodeOutcome → Option Event
  | .ok e => some e
  | _ => none

/-- `SsssPermitter::get_block_events` (`eth.rs` lines 166-181): fetch the logs
of one block, decode each with fan-out 100 (`buffer_unordered`, hence the
environment permutation on the results), and keep the successes.  `none`
models the whole call panicking because one decode panicked. -/
def get_block_events (env : Env) (b : Nat) : Option (List Event) :=
  let outcomes := (env.getLogs b).map (decode_permitter_event env)
  if outcomes.contains .panics then none
  else some (env.perm b (outcomes.filterMap DecodeOutcome.event?))

/-- The synthetic end-of-block marker yielded by `SsssPermitter::events`
(`eth.rs` lines 111-115): kind `ProcessedBlock`, index `Default::default()`,
transaction hash `Default::default()` (= `None`). -/
def processedBlockMarker : Event :=
  { kind := .processedBlock, index := defaultEventIndex, tx := none }

/-- One iteration of the `events` stream for one cursor block: the decoded
real events of the block followed by the synthetic marker.  The consumer in
`sync_chain` drains these batches strictly in block order
(`.buffered(100)` preserves stream order), so the flattened delivery order is
the concatenation of the batches. -/
def blockBatch (env : Env) (b : Nat) : Option (List Event) :=
  (get_block_events env b).map (· ++ [processedBlockMarker])

/-- An event in the delivered stream, tagged with the cursor block whose
iteration of the `events` stream produced it.  The tag identifies which block
a `ProcessedBlock` marker was emitted for, which the marker event itself does
not record. -/
structure Delivered where
  srcBlock : Nat
  event : Event
deriving DecidableEq, Repr

/-- Whether a delivered item is the synthetic end-of-block marker. -/
def Delivered.isMarker (d : Delivered) : Bool :=
  match d.event.kind with
  | .processedBlock => true
  | _ => false

/-- The batch of one cursor block, with each event tagged by that block. -/
def taggedBatch (env : Env) (b : Nat) : Option (List Delivered) :=
  (blockBatch env b).map (List.map fun e => ⟨b, e⟩)

/-- The stream delivered to the supervisor after the first `n` cursor blocks
starting at `start`: `events(start, None)` drained through `.buffered(100)`
and flattened (`sync_chain`, `sync/mod.rs` lines 83-87).  `.buffered` keeps
stream order, so the result is the in-order concatenation of the per-block
batches; `none` models a panic in some batch. -/
def delivered (env : Env) (start : Nat) : Nat → Option (List Delivered)
  | 0 => some []
  | n + 1 => do
    let l ← delivered env start n
    let b ← taggedBatch env (start + n)
    pure (l ++ b)

/-- The delivered stream without the source-block tags. -/
def deliveredEvents (env : Env) (start n : Nat) : Option (List Event) :=
  (delivered env start n).map (List.map Delivered.event)

/-- The sequence of values written to the in-memory highest-processed-block
counter of `sync_chain`: `AtomicU64::new(start_block)` (`sync/mod.rs` line
59) followed by one `store(event.index.block)` per `ProcessedBlock` event
consumed (`sync/mod.rs` lines 140-142). -/
def counterWrites (startBlock : Nat) (evs : List Event) : List Nat :=
  startBlock :: evs.filterMap fun e =>
    match e.kind with
    | .processedBlock => some e.index.block
    | _ => none

/-- `counterWrites` applied to the delivered stream of the first `n` blocks. -/
def counterWritesAfter (env : Env) (startBlock n : Nat) : Option (List Nat) :=
  (deliveredEvents env startBlock n).map (counterWrites startBlock)

/-- The starting-block selection of `sync_chain` (`sync/mod.rs` lines 54-57):
use the persisted `ChainState.block` when present, otherwise call
`permitter.creation_block()`.  The second component records whether the
creation-block fetch was performed (the `None` arm is the only one that
evaluates it). -/
def startBlockOf (chainState : Option Nat) (creationBlock : Nat) : Nat × Bool :=
  match chainState with
  | some block => (block, false)
  | none => (creationBlock, true)

/-- The block yielded by the `n`-th iteration of the `blocks` cursor loop
(`eth.rs` lines 134-145): the loop state starts at `start_block` and each
iteration yields the current state then increments it. -/
def cursorBlock (start : Nat) : Nat → Nat
  | 0 => start
  | n + 1 => cursorBlock start n + 1

/-- The index of the first head report at or after poll `t` whose value
reaches `target`: the final poll of one `wait_for_block` call (`eth.rs` lines
148-164), which `retry_if` repeats until the reported head is at least the
target.  `heads t` is the result of the `t`-th successful `get_block_number`
call of this cursor (`retry` hides transient failures, so the modelled call
sequence is total); the hypothesis says the chain eventually reaches every
height. -/
def waitFrom (heads : Nat → Nat) (t target : Nat)
    (h : ∃ d, target ≤ heads (t + d)) : Nat :=
  t + Nat.find h

/-- The index of the most recent head report the cursor has observed once it
has performed `n` yields.  Report 0 is the initial `get_block_number` that
computes `init_block` (`eth.rs` lines 124-133); a yield of a block at most
`init_block` polls nothing, and a yield beyond it runs `wait_for_block`,
whose polls continue the global report sequence. -/
def lastPoll (heads : Nat → Nat) (start : Nat)
    (hunb : ∀ t target, ∃ d, target ≤ heads (t + d)) : Nat → Nat
  | 0 => 0
  | n + 1 =>
    if start + n ≤ heads 0 then lastPoll heads start hunb n
    else waitFrom heads (lastPoll heads start hunb n + 1) (start + n) (hunb _ _)

/-- An RPC endpoint as `providers` (`eth.rs` lines 221-265) sees it: the
scheme of its parsed URL and the outcome of its `eth_chainId` query (`none`
models a query that fails even after the transport-level retries). -/
structure Endpoint where
  scheme : String
  chainQuery : Option Nat
deriving DecidableEq, Repr

/-- The quorum policy of an ethers `QuorumProvider`; `providers` always
builds `Quorum::Majority`. -/
inductive Quorum where
  | all
  | majority
  | percentage (p : Nat)
deriving DecidableEq, Repr

/-- A constructed quorum provider: the policy plus the endpoints it wraps. -/
structure Provider where
  quorum : Quorum
  endpoints : List Endpoint
deriving DecidableEq, Repr

/-- Pair each endpoint with its reported chain id; `none` when any query
fails (`try_buffer_unordered` aborts the whole call on the first error). -/
def chainPairs : List Endpoint → Option (List (Nat × Endpoint))
  | [] => some []
  | e :: rest =>
    match e.chainQuery with
    | none => none
    | some c => (chainPairs rest).map ((c, e) :: ·)

/-- Group the (chain id, endpoint) pairs into one entry per distinct chain
id, each entry holding the endpoints that reported that id, in arrival
order.  This is the extensional content of the `try_fold` into
`HashMap<ChainId, Vec<_>>` at `eth.rs` lines 246-252 (a HashMap leaves the
entry order unspecified; the model fixes one order, and every claim about
the result is order-free). -/
def groupByChain (l : List (Nat × Endpoint)) : List (Nat × List Endpoint) :=
  ((l.map Prod.fst).dedup).map fun c =>
    (c, (l.filter fun p => p.1 = c).map Prod.snd)

/-- `providers` (`eth.rs` lines 221-265), for already-parseable URLs: reject
any non-http scheme outright; query every chain id (any failure aborts);
group by chain id; wrap each group in a majority quorum provider.
`arrivals` is the endpoint list in the completion order that
`try_buffer_unordered(10)` happens to produce (an arbitrary permutation of
the configured list). -/
def providersModel (arrivals : List Endpoint) :
    Except String (List (Nat × Provider)) :=
  if arrivals.all (fun e => e.scheme == "http") then
    match chainPairs arrivals with
    | none => .error "provider error"
    | some pairs =>
      .ok ((groupByChain pairs).map fun g =>
        (g.1, { quorum := .majority, endpoints := g.2 }))
  else .error "unsupported rpc url"

/-! Concrete instantiations used to evaluate the model on explicit inputs. -/

/-- The identity completion order: `buffer_unordered` happened to finish the
decodes in submission order. -/
def idPerm : Nat → List Event → List Event := fun _ l => l

/-- The identity completion order is a permutation of its input. -/
def idPerm_spec : ∀ b l, (idPerm b l).Perm l := fun _ l => List.Perm.refl l

/-- An environment whose chain has no logs at all and whose ABI decoder
accepts any input. -/
def cenvEmpty : Env :=
  { getLogs := fun _ => []
    txInput := fun _ => []
    decodeConfigure := fun i => some (0, i)
    perm := idPerm
    perm_spec := idPerm_spec }

/-- A well-formed `Configuration` log at block 1, log index 0, from
transaction 7. -/
def cfgLog1 : Log :=
  { block_number := some 1
    transaction_hash := some 7
    log_index := some 0
    removed := none
    topics := [configurationTopic]
    data := [] }

/-- An environment whose chain has exactly one `Configuration` log, in block
1, and whose ABI decoder succeeds on the transaction calldata. -/
def cenvOne : Env :=
  { getLogs := fun b => if b = 1 then [cfgLog1] else []
    txInput := fun _ => [9]
    decodeConfigure := fun i => some (5, i)
    perm := idPerm
    perm_spec := idPerm_spec }

/-- Like `cenvOne`, but the ABI decode of the transaction calldata fails
(malformed calldata). -/
def cenvBad : Env := { cenvOne with decodeConfigure := fun _ => none }

/-- A log flagged `removed = Some(true)` (reorged). -/
def removedTrueLog : Log := { cfgLog1 with removed := some true }

/-- A log carrying `removed = Some(false)` explicitly. -/
def removedFalseLog : Log := { cfgLog1 with removed := some false }

/-- A log whose signature topic matches no event of the contract ABI. -/
def unknownTopicLog : Log := { cfgLog1 with topics := [5] }

/-! Claim theorems. -/

/-- Claim C1, evaluated at the failing input (cursor block N = 1): the events
pipeline does append exactly one synthetic ProcessedBlock marker to the block
result set, and that marker carries no transaction hash, but its index is the
constant `EventIndex::default()` = (0, 0), whose block number is 0, not the
cursor block 1.  The claim, which requires the marker index to carry block
number N, fails. -/
theorem c1_marker_index_eval :
    blockBatch cenvEmpty 1 = some [processedBlockMarker] ∧
    (blockBatch cenvEmpty 1).map
      (List.countP fun e => e.kind = EventKind.processedBlock) = some 1 ∧
    processedBlockMarker.tx = none ∧
    processedBlockMarker.index.block = 0 ∧ (0 : Nat) ≠ 1 := by
  decide

/-- Claim C2, evaluated at the failing input (checkpoint block B = 500, one
block consumed): the supervisor counter starts at 500, then the first
ProcessedBlock marker makes it store `event.index.block` = 0, so the write
sequence [500, 0] both decreases and drops below B. -/
theorem c2_counter_regresses_eval :
    counterWritesAfter cenvEmpty 500 1 = some [500, 0] ∧ ¬ (500 : Nat) ≤ 0 := by
  decide

/-- Claim C3, evaluated at the failing input (block 1 holding one real
Configuration log at log index 0): the delivered stream is the real event
with index (1, 0) followed by the ProcessedBlock marker with the constant
index (0, 0), so the delivered EventIndex sequence decreases. -/
theorem c3_indices_not_monotone_eval :
    (deliveredEvents cenvOne 1 1).map (List.map Event.index) =
      some [⟨1, 0⟩, ⟨0, 0⟩] ∧
    ¬ EventIndex.le ⟨1, 0⟩ ⟨0, 0⟩ := by
  decide

/-- Claim C6: a log missing its block number, its transaction hash, or its
log index, or flagged as removed, is discarded by `decode_permitter_event`
without error and contributes no event. -/
theorem c6_defective_logs_dropped (env : Env) (log : Log)
    (h : log.block_number = none ∨ log.transaction_hash = none ∨
      log.log_index = none ∨ log.removed = some true) :
    decode_permitter_event env log = .dropped := by
  rcases log with ⟨bn, tx, li, rm, tp, da⟩
  rcases bn with _ | b <;> rcases tx with _ | t <;>
    rcases li with _ | i <;> rcases rm with _ | r <;>
    simp_all [decode_permitter_event]

/-- Claim C6, witnessed on a concrete removed-flagged log. -/
theorem c6_witness :
    decode_permitter_event cenvEmpty removedTrueLog = .dropped :=
  c6_defective_logs_dropped cenvEmpty removedTrueLog (by decide)

/-- Claim C8: when a persisted ChainState exists its block is the starting
block and the creation-block fetch is not performed; when none exists the
starting block is the contract creation block (and the fetch is performed). -/
theorem c8_start_block_selection (b cb : Nat) :
    startBlockOf (some b) cb = (b, false) ∧ startBlockOf none cb = (cb, true) :=
  ⟨rfl, rfl⟩

/-- Claim C9, counterexample: a log whose event signature is recognized as
`Configuration` but whose source-transaction calldata fails to ABI-decode is
not dropped with a warning — the `.unwrap()` at eth.rs line 205 panics, which
aborts the whole pipeline task.  The claim states decoding never panics. -/
theorem c9_calldata_panic_counterexample :
    cenvBad.decodeConfigure (cenvBad.txInput 7) = none ∧
    decode_permitter_event cenvBad cfgLog1 = .panics := by
  decide

/-- Claim C9 as amended: a log whose signature the ABI does not recognize is
dropped singly (with a logged warning) and decoding continues, but a log
recognized as `Configuration` whose transaction calldata fails to decode
makes the decode step panic instead of dropping the entry. -/
theorem c9_decode_failures_amended (env : Env) (log : Log) (tx : Nat) :
    ((log.topics ≠ [configurationTopic] ∧ log.topics ≠ [unimplementedTopic]) →
      decode_permitter_event env log = .dropped) ∧
    ((log.transaction_hash = some tx ∧ (log.block_number).isSome ∧
      (log.log_index).isSome ∧ log.removed = none ∧
      log.topics = [configurationTopic] ∧
      env.decodeConfigure (env.txInput tx) = none) →
      decode_permitter_event env log = .panics) := by
  rcases log with ⟨bn, txh, li, rm, tp, da⟩
  constructor
  · rintro ⟨h1, h2⟩
    rcases bn with _ | b <;> rcases txh with _ | t <;>
      rcases li with _ | i <;> rcases rm with _ | r <;>
      simp_all [decode_permitter_event, decode_log]
  · rintro ⟨h1, h2, h3, h4, h5, h6⟩
    simp only at h1 h4 h5
    subst h1 h4 h5
    rcases bn with _ | b
    · simp at h2
    rcases li with _ | i
    · simp at h3
    simp [decode_permitter_event, decode_log, h6]

/-- Claim C9 amended, witnessed: an unrecognized-signature log is dropped
while a recognized log with undecodable calldata panics. -/
theorem c9_witness :
    decode_permitter_event cenvBad unknownTopicLog = .dropped ∧
    decode_permitter_event cenvBad cfgLog1 = .panics :=
  ⟨(c9_decode_failures_amended cenvBad unknownTopicLog 7).1 (by decide),
   (c9_decode_failures_amended cenvBad cfgLog1 7).2 (by decide)⟩

/-- Claim C10: a log whose removed flag is explicitly present — even with
value false — is discarded, and a decoded event is only ever produced from a
log whose removed field is entirely absent. -/
theorem c10_removed_must_be_absent (env : Env) (log : Log) :
    (log.removed = some false → decode_permitter_event env log = .dropped) ∧
    (∀ e, decode_permitter_event env log = .ok e → log.removed = none) := by
  rcases log with ⟨bn, tx, li, rm, tp, da⟩
  constructor
  · intro h
    simp only at h
    subst h
    rcases bn with _ | b <;> rcases tx with _ | t <;> rcases li with _ | i <;>
      rfl
  · intro e h
    rcases rm with _ | r
    · rfl
    · rcases bn with _ | b <;> rcases tx with _ | t <;>
        rcases li with _ | i <;> simp [decode_permitter_event] at h

/-- Claim C10, witnessed: a concrete `removed = Some(false)` log is dropped,
and a concrete successfully decoded log has no removed field. -/
theorem c10_witness :
    decode_permitter_event cenvEmpty removedFalseLog = .dropped ∧
    cfgLog1.removed = none :=
  ⟨(c10_removed_must_be_absent cenvEmpty removedFalseLog).1 (by decide),
   (c10_removed_must_be_absent cenvOne cfgLog1).2
     ⟨.configuration ⟨5, [9]⟩, ⟨1, 0⟩, some 7⟩ (by decide)⟩

/-- Helper for C5: once a yield target exceeds the initial head, the poll
index can only have been left at 0 when every earlier target was within the
initial head; conversely, while targets stay within the initial head, no
polls happen. -/
theorem lastPoll_of_le (heads : Nat → Nat) (start : Nat)
    (hunb : ∀ t target, ∃ d, target ≤ heads (t + d)) :
    ∀ n, start + n ≤ heads 0 → lastPoll heads start hunb (n + 1) = 0 := by
  intro n
  induction n with
  | zero =>
    intro h
    simp only [lastPoll, if_pos h]
  | succ m ih =>
    intro h
    have hm : start + m ≤ heads 0 := by omega
    simp only [lastPoll, if_pos h]
    exact ih hm

/-- Claim C5: the `n`-th block yielded by the cursor started at `start` is
exactly `start + n` (so the yielded sequence is start, start+1, start+2, …
with no gaps and no repeats), and at the moment of each yield the most
recently reported head height is at least the yielded block number. -/
theorem c5_cursor_exact_and_paced (start n : Nat) (heads : Nat → Nat)
    (hunb : ∀ t target, ∃ d, target ≤ heads (t + d)) :
    cursorBlock start n = start + n ∧
    start + n ≤ heads (lastPoll heads start hunb (n + 1)) := by
  constructor
  · induction n with
    | zero => rfl
    | succ m ih =>
      simp only [cursorBlock, ih]
      omega
  · by_cases h : start + n ≤ heads 0
    · rw [lastPoll_of_le heads start hunb n h]
      exact h
    · simp only [lastPoll, if_neg h, waitFrom]
      exact Nat.find_spec (hunb _ _)

/-- Helper for C5: a chain whose reported head is the poll count reaches
every height. -/
def linearHeads : Nat → Nat := fun t => t

/-- Helper for C5: `linearHeads` eventually reaches every target from every
starting poll. -/
def linearHeads_unbounded : ∀ t target, ∃ d, target ≤ linearHeads (t + d) :=
  fun t target => ⟨target, Nat.le_add_left target t⟩

/-- Claim C5, witnessed at start = 3, n = 2, on a chain whose head grows by
one per poll. -/
theorem c5_witness :
    cursorBlock 3 2 = 3 + 2 ∧
    3 + 2 ≤ linearHeads (lastPoll linearHeads 3 linearHeads_unbounded (2 + 1)) :=
  c5_cursor_exact_and_paced 3 2 linearHeads linearHeads_unbounded

/-- Delivery-order relation for C4: a later item of the delivered stream
comes from a later cursor block, or from the same block with the marker never
preceding a real event of that block. -/
def deliveryOrder (a b : Delivered) : Prop :=
  a.srcBlock < b.srcBlock ∨
    (a.srcBlock = b.srcBlock ∧ (a.isMarker = false ∨ b.isMarker = true))

/-- A successful decode takes its block number from the decoded log, and
never produces a ProcessedBlock event. -/
theorem decode_ok_shape (env : Env) (log : Log) (e : Event)
    (h : decode_permitter_event env log = .ok e) :
    log.block_number = some e.index.block ∧
      e.kind ≠ EventKind.processedBlock := by
  rcases log with ⟨bn, tx, li, rm, tp, da⟩
  rcases bn with _ | b <;> rcases tx with _ | t <;>
    rcases li with _ | i <;> rcases rm with _ | r <;>
    simp only [decode_permitter_event] at h <;>
    try exact absurd h (by simp)
  rcases hd : decode_log tp with s | ev
  · rw [hd] at h
    simp at h
  · rw [hd] at h
    rcases ev
    · rcases hdc : env.decodeConfigure (env.txInput t) with _ | p
      · rw [hdc] at h
        simp at h
      · rw [hdc] at h
        rcases p with ⟨ident, cfg⟩
        simp only [DecodeOutcome.ok.injEq] at h
        rw [← h]
        exact ⟨rfl, by simp⟩
    · simp at h

/-- Every event of a non-panicking block result comes from a successful
decode of one of the logs fetched for that block. -/
theorem get_block_events_mem (env : Env) (b : Nat) (evs : List Event)
    (h : get_block_events env b = some evs) (e : Event) (he : e ∈ evs) :
    ∃ log, log ∈ env.getLogs b ∧ decode_permitter_event env log = .ok e := by
  simp only [get_block_events] at h
  by_cases hp :
      ((env.getLogs b).map (decode_permitter_event env)).contains .panics
  · rw [if_pos hp] at h
    exact absurd h (by simp)
  · rw [if_neg hp] at h
    injection h with h
    have hperm := env.perm_spec b
      (((env.getLogs b).map (decode_permitter_event env)).filterMap
        DecodeOutcome.event?)
    rw [h] at hperm
    have he2 := hperm.mem_iff.mp he
    rcases List.mem_filterMap.mp he2 with ⟨o, ho, hoe⟩
    rcases List.mem_map.mp ho with ⟨log, hlog, rfl⟩
    refine ⟨log, hlog, ?_⟩
    rcases hcase : decode_permitter_event env log with _ | e0 | _ <;>
      rw [hcase] at hoe <;> simp [DecodeOutcome.event?] at hoe
    rw [hoe]

/-- A defined tagged batch is the decoded events of its block followed by the
marker, all tagged with the block. -/
theorem taggedBatch_eq (env : Env) (b : Nat) (tb : List Delivered)
    (h : taggedBatch env b = some tb) :
    ∃ evs, get_block_events env b = some evs ∧
      tb = (evs ++ [processedBlockMarker]).map (fun e => ⟨b, e⟩) := by
  simp only [taggedBatch, blockBatch] at h
  rcases hg : get_block_events env b with _ | evs
  · rw [hg] at h
    simp at h
  · rw [hg] at h
    refine ⟨evs, rfl, ?_⟩
    simpa using h.symm

/-- Structural invariant of the delivered stream: items are pairwise in
delivery order, every item comes from a cursor block below the consumed
range, and every real item records the block of its source log as its index
block. -/
theorem delivered_pairwise (env : Env)
    (hlogs : ∀ b, ∀ log ∈ env.getLogs b, log.block_number = some b)
    (start : Nat) (n : Nat) (l : List Delivered)
    (h : delivered env start n = some l) :
    l.Pairwise deliveryOrder ∧
      ∀ d ∈ l, d.srcBlock < start + n ∧
        (d.isMarker = false → d.event.index.block = d.srcBlock) := by
  induction n generalizing l with
  | zero =>
    simp only [delivered, Option.some.injEq] at h
    subst h
    exact ⟨List.Pairwise.nil, by simp⟩
  | succ m ih =>
    rcases hd : delivered env start m with _ | l0
    · rw [delivered, hd] at h
      simp at h
    rcases ht : taggedBatch env (start + m) with _ | tb
    · rw [delivered, hd, ht] at h
      simp at h
    have hl : l = l0 ++ tb := by
      rw [delivered, hd, ht] at h
      simpa using h.symm
    obtain ⟨ihp, ihm⟩ := ih l0 hd
    obtain ⟨evs, hevs, htb⟩ := taggedBatch_eq env (start + m) tb ht
    have hreal : ∀ e ∈ evs,
        e.kind ≠ EventKind.processedBlock ∧ e.index.block = start + m := by
      intro e he
      obtain ⟨log, hlog, hdec⟩ := get_block_events_mem env (start + m) evs hevs e he
      obtain ⟨hbn, hkind⟩ := decode_ok_shape env log e hdec
      have hb := hlogs (start + m) log hlog
      rw [hb] at hbn
      injection hbn with hbn
      exact ⟨hkind, hbn.symm⟩
    have hnotm : ∀ e ∈ evs, Delivered.isMarker ⟨start + m, e⟩ = false := by
      intro e he
      have := (hreal e he).1
      rcases hk : e.kind with ce | _
      · simp [Delivered.isMarker, hk]
      · exact absurd hk this
    have htbp : tb.Pairwise deliveryOrder := by
      subst htb
      rw [List.pairwise_map]
      apply List.pairwise_append.mpr
      refine ⟨?_, List.pairwise_singleton _ _, ?_⟩
      · apply List.pairwise_of_forall_mem_list
        intro a ha c hc
        exact Or.inr ⟨rfl, Or.inl (hnotm a ha)⟩
      · intro a ha c hc
        simp only [List.mem_singleton] at hc
        subst hc
        exact Or.inr ⟨rfl, Or.inr rfl⟩
    have htbm : ∀ d ∈ tb, d.srcBlock = start + m ∧
        (d.isMarker = false → d.event.index.block = d.srcBlock) := by
      subst htb
      intro d hd2
      rcases List.mem_map.mp hd2 with ⟨e, he, rfl⟩
      refine ⟨rfl, fun hmf => ?_⟩
      rcases List.mem_append.mp he with he | he
      · exact (hreal e he).2
      · simp only [List.mem_singleton] at he
        subst he
        simp [Delivered.isMarker, processedBlockMarker] at hmf
    subst hl
    constructor
    · apply List.pairwise_append.mpr
      refine ⟨ihp, htbp, ?_⟩
      intro a ha c hc
      have h1 := (ihm a ha).1
      have h2 := (htbm c hc).1
      exact Or.inl (by omega)
    · intro d hd2
      rcases List.mem_append.mp hd2 with hd2 | hd2
      · obtain ⟨h1, h2⟩ := ihm d hd2
        exact ⟨by omega, h2⟩
      · obtain ⟨h1, h2⟩ := htbm d hd2
        exact ⟨by omega, h2⟩

/-- Claim C4: in the delivered stream, the ProcessedBlock marker emitted for
cursor block N comes strictly after every real event whose index block is N,
and strictly after the marker emitted for every earlier cursor block.
Hypothesis `hlogs` is the eth_getLogs filter contract: a log fetched for one
block reports that block as its block number. -/
theorem c4_marker_ordering (env : Env)
    (hlogs : ∀ b, ∀ log ∈ env.getLogs b, log.block_number = some b)
    (start n : Nat) (l : List Delivered)
    (hdel : delivered env start n = some l)
    (i j N M : Nat) (hi : i < l.length) (hj : j < l.length) :
    (((l.get ⟨i, hi⟩).isMarker = false ∧
      (l.get ⟨i, hi⟩).event.index.block = N ∧
      (l.get ⟨j, hj⟩).isMarker = true ∧ (l.get ⟨j, hj⟩).srcBlock = N) →
        i < j) ∧
    (((l.get ⟨i, hi⟩).isMarker = true ∧ (l.get ⟨i, hi⟩).srcBlock = M ∧
      (l.get ⟨j, hj⟩).isMarker = true ∧ (l.get ⟨j, hj⟩).srcBlock = N ∧
      M < N) → i < j) := by
  obtain ⟨hp, hm⟩ := delivered_pairwise env hlogs start n l hdel
  have hpg := List.pairwise_iff_get.mp hp
  constructor
  · rintro ⟨h1, h2, h3, h4⟩
    by_contra hij
    have hle : j ≤ i := Nat.le_of_not_lt hij
    have hsrc : (l.get ⟨i, hi⟩).srcBlock = N := by
      have := (hm _ (List.get_mem l i hi)).2 h1
      rw [h2] at this
      exact this.symm
    rcases Nat.eq_or_lt_of_le hle with heq | hlt
    · subst heq
      rw [h1] at h3
      exact Bool.noConfusion h3
    · have hR := hpg ⟨j, hj⟩ ⟨i, hi⟩ hlt
      rcases hR with hblk | ⟨heq2, hor⟩
      · rw [h4, hsrc] at hblk
        exact absurd hblk (lt_irrefl N)
      · rcases hor with hmf | hmt
        · rw [h3] at hmf
          exact Bool.noConfusion hmf
        · rw [h1] at hmt
          exact Bool.noConfusion hmt
  · rintro ⟨h1, h2, h3, h4, h5⟩
    by_contra hij
    have hle : j ≤ i := Nat.le_of_not_lt hij
    rcases Nat.eq_or_lt_of_le hle with heq | hlt
    · subst heq
      rw [h2] at h4
      omega
    · have hR := hpg ⟨j, hj⟩ ⟨i, hi⟩ hlt
      rcases hR with hblk | ⟨heq2, _⟩
      · rw [h4, h2] at hblk
        omega
      · rw [h4, h2] at heq2
        omega

/-- The delivered stream of `cenvOne` after two cursor blocks starting at 1:
the real Configuration event of block 1, the marker of block 1, then the
marker of block 2. -/
def dlist2 : List Delivered :=
  [⟨1, ⟨.configuration ⟨5, [9]⟩, ⟨1, 0⟩, some 7⟩⟩,
   ⟨1, processedBlockMarker⟩,
   ⟨2, processedBlockMarker⟩]

/-- The log store of `cenvOne` satisfies the eth_getLogs filter contract. -/
theorem cenvOne_logs :
    ∀ b, ∀ log ∈ cenvOne.getLogs b, log.block_number = some b := by
  intro b log hmem
  by_cases hb : b = 1
  · subst hb
    simp [cenvOne] at hmem
    subst hmem
    rfl
  · simp [cenvOne, hb] at hmem

/-- Claim C4, witnessed on `cenvOne`: the real event of block 1 (position 0)
precedes the marker of block 1 (position 1), which precedes the marker of
block 2 (position 2). -/
theorem c4_witness : ((0 : Nat) < 1) ∧ ((1 : Nat) < 2) :=
  ⟨(c4_marker_ordering cenvOne cenvOne_logs 1 2 dlist2 (by decide)
      0 1 1 0 (by decide) (by decide)).1 (by decide),
   (c4_marker_ordering cenvOne cenvOne_logs 1 2 dlist2 (by decide)
      1 2 2 1 (by decide) (by decide)).2 (by decide)⟩

/-- The chain id an endpoint reported, once its query is known to have
succeeded. -/
def idOf (e : Endpoint) : Nat := e.chainQuery.getD 0

/-- An endpoint paired with its reported chain id. -/
def pairOf (e : Endpoint) : Nat × Endpoint := (idOf e, e)

/-- When every chain-id query succeeds, `chainPairs` succeeds and pairs each
endpoint with its reported id. -/
theorem chainPairs_eq (arr : List Endpoint)
    (h : ∀ e ∈ arr, (e.chainQuery).isSome) :
    chainPairs arr = some (arr.map pairOf) := by
  induction arr with
  | nil => rfl
  | cons e rest ih =>
    have he := h e (List.mem_cons_self e rest)
    rcases hq : e.chainQuery with _ | c
    · rw [hq] at he
      simp at he
    · simp only [chainPairs, hq,
        ih (fun x hx => h x (List.mem_cons_of_mem e hx))]
      simp [pairOf, idOf, hq]

/-- The first components of the id-endpoint pairs are the reported ids. -/
theorem pairs_map_fst (arr : List Endpoint) :
    (arr.map pairOf).map Prod.fst = arr.map idOf := by
  rw [List.map_map]
  rfl

/-- Restricting the id-endpoint pairs to one chain id and dropping the ids
leaves exactly the endpoints that reported that id. -/
theorem pairs_filter_snd (arr : List Endpoint) (c : Nat)
    (hsome : ∀ e ∈ arr, (e.chainQuery).isSome) :
    ((arr.map pairOf).filter (fun p => p.1 = c)).map Prod.snd =
      arr.filter (fun e => e.chainQuery = some c) := by
  rw [List.filter_map, List.map_map]
  have hsnd : Prod.snd ∘ pairOf = id := rfl
  rw [hsnd, List.map_id]
  apply List.filter_congr
  intro e he
  have hs := hsome e he
  rcases hq : e.chainQuery with _ | c0
  · rw [hq] at hs
    simp at hs
  · simp [Function.comp, pairOf, idOf, hq]

/-- A list of naturals drawn from a two-element set that hits both elements
dedups to length two. -/
theorem dedup_length_two (l : List Nat) (c1 c2 : Nat) (hne : c1 ≠ c2)
    (h : ∀ x ∈ l, x = c1 ∨ x = c2) (h1 : c1 ∈ l) (h2 : c2 ∈ l) :
    l.dedup.length = 2 := by
  rw [← List.toFinset_card_of_nodup (List.nodup_dedup l)]
  have hfin : l.dedup.toFinset = {c1, c2} := by
    ext x
    simp only [List.mem_toFinset, List.mem_dedup, Finset.mem_insert,
      Finset.mem_singleton]
    constructor
    · exact h x
    · rintro (rfl | rfl) <;> assumption
  rw [hfin]
  exact Finset.card_pair hne

/-- Claim C7: when every endpoint parses as plain http and every chain-id
query succeeds, reporting exactly the two distinct ids c1 and c2, the
registry returns exactly two entries; each entry is a majority-quorum
provider, keyed by one of the two ids, and the entry for each id wraps
exactly (up to arrival order) the endpoints that reported that id.  `arr` is
the arbitrary completion order of `try_buffer_unordered`. -/
theorem c7_two_chain_grouping (es arr : List Endpoint) (hperm : arr.Perm es)
    (hhttp : ∀ e ∈ es, e.scheme = "http")
    (c1 c2 : Nat) (hne : c1 ≠ c2)
    (hids : ∀ e ∈ es, e.chainQuery = some c1 ∨ e.chainQuery = some c2)
    (h1 : ∃ e ∈ es, e.chainQuery = some c1)
    (h2 : ∃ e ∈ es, e.chainQuery = some c2) :
    ∃ out, providersModel arr = .ok out ∧ out.length = 2 ∧
      (∀ g ∈ out, g.2.quorum = .majority ∧ (g.1 = c1 ∨ g.1 = c2)) ∧
      (∀ c, (c = c1 ∨ c = c2) → ∃ g ∈ out, g.1 = c ∧
        g.2.endpoints.Perm (es.filter fun e => e.chainQuery = some c)) := by
  have hids_arr : ∀ e ∈ arr, e.chainQuery = some c1 ∨ e.chainQuery = some c2 :=
    fun e he => hids e (hperm.mem_iff.mp he)
  have hsome_arr : ∀ e ∈ arr, (e.chainQuery).isSome := by
    intro e he
    rcases hids_arr e he with h | h <;> rw [h] <;> rfl
  have hhttp_arr : arr.all (fun e => e.scheme == "http") = true := by
    rw [List.all_eq_true]
    intro e he
    have := hhttp e (hperm.mem_iff.mp he)
    simp [this]
  have hid_val : ∀ e ∈ arr, idOf e = c1 ∨ idOf e = c2 := by
    intro e he
    rcases hids_arr e he with h | h <;> rw [idOf, h] <;> [left; right] <;> rfl
  have hmem1 : c1 ∈ arr.map idOf := by
    rcases h1 with ⟨e, he, hq⟩
    exact List.mem_map.mpr ⟨e, hperm.mem_iff.mpr he, by rw [idOf, hq]; rfl⟩
  have hmem2 : c2 ∈ arr.map idOf := by
    rcases h2 with ⟨e, he, hq⟩
    exact List.mem_map.mpr ⟨e, hperm.mem_iff.mpr he, by rw [idOf, hq]; rfl⟩
  have hval : ∀ x ∈ arr.map idOf, x = c1 ∨ x = c2 := by
    intro x hx
    rcases List.mem_map.mp hx with ⟨e, he, rfl⟩
    exact hid_val e he
  refine ⟨(groupByChain (arr.map pairOf)).map
      (fun g => (g.1, ⟨.majority, g.2⟩)), ?_, ?_, ?_, ?_⟩
  · simp only [providersModel, hhttp_arr, if_true, chainPairs_eq arr hsome_arr]
  · rw [List.length_map, groupByChain, List.length_map, pairs_map_fst]
    exact dedup_length_two _ c1 c2 hne hval hmem1 hmem2
  · intro g hg
    rcases List.mem_map.mp hg with ⟨g0, hg0, rfl⟩
    refine ⟨rfl, ?_⟩
    rcases List.mem_map.mp hg0 with ⟨c, hc, rfl⟩
    rw [pairs_map_fst] at hc
    exact hval c (List.mem_dedup.mp hc)
  · intro c hc
    have hcmem : c ∈ ((arr.map pairOf).map Prod.fst).dedup := by
      rw [pairs_map_fst, List.mem_dedup]
      rcases hc with rfl | rfl
      · exact hmem1
      · exact hmem2
    refine ⟨(c, ⟨.majority,
        ((arr.map pairOf).filter (fun p => p.1 = c)).map Prod.snd⟩), ?_, rfl, ?_⟩
    · exact List.mem_map.mpr
        ⟨(c, ((arr.map pairOf).filter (fun p => p.1 = c)).map Prod.snd),
         List.mem_map.mpr ⟨c, hcmem, rfl⟩, rfl⟩
    · rw [pairs_filter_snd arr c hsome_arr]
      exact hperm.filter _

/-- Claim C7, witnessed on the spec scenario: endpoints A and B report chain
1 and endpoint C reports chain 2, in arrival order [A, B, C]. -/
theorem c7_witness :
    ∃ out,
      providersModel [⟨"http", some 1⟩, ⟨"http", some 1⟩, ⟨"http", some 2⟩] =
        .ok out ∧
      out.length = 2 ∧
      (∀ g ∈ out, g.2.quorum = .majority ∧ (g.1 = 1 ∨ g.1 = 2)) ∧
      (∀ c, (c = 1 ∨ c = 2) → ∃ g ∈ out, g.1 = c ∧
        g.2.endpoints.Perm
          (([⟨"http", some 1⟩, ⟨"http", some 1⟩, ⟨"http", some 2⟩] :
            List Endpoint).filter fun e => e.chainQuery = some c)) :=
  c7_two_chain_grouping
    [⟨"http", some 1⟩, ⟨"http", some 1⟩, ⟨"http", some 2⟩]
    [⟨"http", some 1⟩, ⟨"http", some 1⟩, ⟨"http", some 2⟩]
    (List.Perm.refl _) (by decide) 1 2 (by decide) (by decide)
    ⟨⟨"http", some 1⟩, by decide⟩ ⟨⟨"http", some 2⟩, by decide⟩

end Ssss
